import Mathlib

/-!
Verification of the email rule-evaluation engine
(`modules/email_organizer/rule_engine.py`) and action dispatcher
(`modules/email_organizer/organizer.py`).

The Python code is shallowly embedded: JSON-like scalar and list values
become the inductive `Value`, dictionaries become association lists,
Python exceptions become `Except PyErr`, and the regular-expression
matcher (`re.match`) is abstracted as an explicit function parameter
`rm : String → String → Bool` (no claim under verification exercises
regular expressions).
-/

namespace EmailRules

/-- Python exceptions that the embedded code can raise. -/
inductive PyErr where
  | typeError
  | keyError
  | attributeError
  deriving Repr, DecidableEq

/-- JSON-like values appearing in records, conditions and actions.
The spec's data model restricts record values to scalars (string,
number, boolean, null) or lists of such values. -/
inductive Value where
  | str : String → Value
  | int : Int → Value
  | bool : Bool → Value
  | none : Value
  | list : List Value → Value
  | dict : List (String × Value) → Value
  deriving Repr

/-- Python truthiness (`bool(v)`): empty string, zero, `False`, `None`
and the empty list are falsy. -/
def Value.truthy : Value → Bool
  | .str s => !s.isEmpty
  | .int n => n != 0
  | .bool b => b
  | .none => false
  | .list l => !l.isEmpty
  | .dict d => !d.isEmpty

/-- Whether a value is a Python `str` (models `isinstance(v, str)`). -/
def Value.isStr : Value → Bool
  | .str _ => true
  | _ => false

/-- Whether a value is a Python `list` (models `isinstance(v, list)`). -/
def Value.isList : Value → Bool
  | .list _ => true
  | _ => false

/-- ASCII lowercasing of one character, the model of what Python
`str.lower` does on the ASCII inputs the rules operate on. -/
def pyLowerChar (c : Char) : Char :=
  if 65 ≤ c.toNat ∧ c.toNat ≤ 90 then Char.ofNat (c.toNat + 32) else c

/-- Model of Python `str.lower`. -/
def pyLower (s : String) : String :=
  ⟨s.data.map pyLowerChar⟩

/-- ASCII uppercasing of one character, the model of what Python
`str.upper` does on the ASCII inputs the rules operate on. -/
def pyUpperChar (c : Char) : Char :=
  if 97 ≤ c.toNat ∧ c.toNat ≤ 122 then Char.ofNat (c.toNat - 32) else c

/-- Model of Python `str.upper`. -/
def pyUpper (s : String) : String :=
  ⟨s.data.map pyUpperChar⟩

mutual

/-- Python `==` on embedded values: numbers and booleans compare by
numeric value (`True == 1`), lists compare elementwise, values of
unrelated types are unequal. -/
def pyEq : Value → Value → Bool
  | .str a, .str b => a == b
  | .int a, .int b => a == b
  | .bool a, .bool b => a == b
  | .bool a, .int b => (if a then (1 : Int) else 0) == b
  | .int a, .bool b => a == (if b then (1 : Int) else 0)
  | .none, .none => true
  | .list a, .list b => pyEqList a b
  | .dict a, .dict b => pyEqPairs a b
  | _, _ => false

/-- Elementwise Python `==` on lists. -/
def pyEqList : List Value → List Value → Bool
  | [], [] => true
  | a :: as, b :: bs => pyEq a b && pyEqList as bs
  | _, _ => false

/-- Equality of embedded dictionaries.  Dictionaries are modeled as
canonically ordered association lists, so Python's order-insensitive
dictionary equality coincides with pointwise comparison. -/
def pyEqPairs : List (String × Value) → List (String × Value) → Bool
  | [], [] => true
  | (ka, va) :: as, (kb, vb) :: bs => ka == kb && pyEq va vb && pyEqPairs as bs
  | _, _ => false

end

mutual

/-- Python rich comparison (`<`, `>`, `<=`, `>=`) on embedded values:
defined for number/boolean pairs, string pairs and list pairs, a
`TypeError` otherwise (in particular for mixed string/number operands
and for `None`). -/
def pyCompare : Value → Value → Except PyErr Ordering
  | .int a, .int b => .ok (compare a b)
  | .int a, .bool b => .ok (compare a (if b then (1 : Int) else 0))
  | .bool a, .int b => .ok (compare (if a then (1 : Int) else 0) b)
  | .bool a, .bool b => .ok (compare (if a then (1 : Int) else 0) (if b then (1 : Int) else 0))
  | .str a, .str b => .ok (compare a b)
  | .list a, .list b => pyCompareList a b
  | _, _ => .error .typeError

/-- Python lexicographic list comparison: skip `==`-equal heads, then
compare the first differing elements (which may raise `TypeError`). -/
def pyCompareList : List Value → List Value → Except PyErr Ordering
  | [], [] => .ok .eq
  | [], _ :: _ => .ok .lt
  | _ :: _, [] => .ok .gt
  | a :: as, b :: bs =>
    if pyEq a b then pyCompareList as bs else pyCompare a b

end

/-- Substring test: models the Python expression `b in a` on strings. -/
def strContains (a b : String) : Bool :=
  decide (b.data <:+: a.data)

/-- Models Python `a.startswith(b)`. -/
def strStartsWith (a b : String) : Bool :=
  decide (b.data <+: a.data)

/-- Models Python `a.endswith(b)`. -/
def strEndsWith (a b : String) : Bool :=
  decide (b.data <:+ a.data)

/-- Operator `equals` from the table in `RuleEngine.__init__`:
`operator.eq`. -/
def opEquals (a b : Value) : Except PyErr Bool :=
  .ok (pyEq a b)

/-- Operator `contains`: `b.lower() in a.lower()` when both operands
are strings, otherwise `False`. -/
def opContains (a b : Value) : Except PyErr Bool :=
  match a, b with
  | .str a, .str b => .ok (strContains (pyLower a) (pyLower b))
  | _, _ => .ok false

/-- Operator `not_contains`: `b.lower() not in a.lower()` when both
operands are strings, otherwise `True`. -/
def opNotContains (a b : Value) : Except PyErr Bool :=
  match a, b with
  | .str a, .str b => .ok (!strContains (pyLower a) (pyLower b))
  | _, _ => .ok true

/-- Operator `startswith`: `a.lower().startswith(b.lower())` when both
operands are strings, otherwise `False`. -/
def opStartswith (a b : Value) : Except PyErr Bool :=
  match a, b with
  | .str a, .str b => .ok (strStartsWith (pyLower a) (pyLower b))
  | _, _ => .ok false

/-- Operator `endswith`: `a.lower().endswith(b.lower())` when both
operands are strings, otherwise `False`. -/
def opEndswith (a b : Value) : Except PyErr Bool :=
  match a, b with
  | .str a, .str b => .ok (strEndsWith (pyLower a) (pyLower b))
  | _, _ => .ok false

/-- Operator `matches_regex`: `re.match(b, a) is not None` when both
operands are strings (abstracted by the parameter `rm`), otherwise
`False`. -/
def opMatchesRegex (rm : String → String → Bool) (a b : Value) : Except PyErr Bool :=
  match a, b with
  | .str a, .str b => .ok (rm b a)
  | _, _ => .ok false

/-- Operator `equals_ignore_case`: `a.lower() == b.lower()` when both
operands are strings, otherwise `False`. -/
def opEqualsIgnoreCase (a b : Value) : Except PyErr Bool :=
  match a, b with
  | .str a, .str b => .ok (pyLower a == pyLower b)
  | _, _ => .ok false

/-- Operator `greater_than`: `operator.gt`. -/
def opGreaterThan (a b : Value) : Except PyErr Bool :=
  (pyCompare a b).map fun o => o == .gt

/-- Operator `less_than`: `operator.lt`. -/
def opLessThan (a b : Value) : Except PyErr Bool :=
  (pyCompare a b).map fun o => o == .lt

/-- Operator `greater_than_or_equal`: `operator.ge`. -/
def opGreaterThanOrEqual (a b : Value) : Except PyErr Bool :=
  (pyCompare a b).map fun o => o != .lt

/-- Operator `less_than_or_equal`: `operator.le`. -/
def opLessThanOrEqual (a b : Value) : Except PyErr Bool :=
  (pyCompare a b).map fun o => o != .gt

/-- Operator `is_empty`: `not a`, the condition value is ignored. -/
def opIsEmpty (a _b : Value) : Except PyErr Bool :=
  .ok (!a.truthy)

/-- Operator `is_not_empty`: `bool(a)`, the condition value is ignored. -/
def opIsNotEmpty (a _b : Value) : Except PyErr Bool :=
  .ok a.truthy

/-- Lowercase every element of a Python list, raising `AttributeError`
when an element is not a string (models the list comprehension
`item.lower() for item in b`). -/
def lowerAll : List Value → Except PyErr (List String)
  | [] => .ok []
  | .str s :: rest => (lowerAll rest).map fun tl => pyLower s :: tl
  | _ :: _ => .error .attributeError

/-- Operator `in`: case-insensitive membership when the field value is
a string and the condition value a list (may raise `AttributeError` on
non-string list items), plain membership when only the condition value
is a list, otherwise `False`. -/
def opIn (a b : Value) : Except PyErr Bool :=
  match b with
  | .list items =>
    match a with
    | .str s => (lowerAll items).map fun ls => ls.contains (pyLower s)
    | _ => .ok (items.any fun x => pyEq a x)
  | _ => .ok false

/-- Operator `not_in`: the same cases as `in` negated, except that a
non-list condition value yields `True`. -/
def opNotIn (a b : Value) : Except PyErr Bool :=
  match b with
  | .list items =>
    match a with
    | .str s => (lowerAll items).map fun ls => !ls.contains (pyLower s)
    | _ => .ok (!items.any fun x => pyEq a x)
  | _ => .ok true

/-- The operator table built in `RuleEngine.__init__` (the source lists
the key `equals` twice with the same function; it appears once here). -/
def operatorsList (rm : String → String → Bool) :
    List (String × (Value → Value → Except PyErr Bool)) :=
  [ ("equals", opEquals),
    ("contains", opContains),
    ("not_contains", opNotContains),
    ("startswith", opStartswith),
    ("endswith", opEndswith),
    ("matches_regex", opMatchesRegex rm),
    ("equals_ignore_case", opEqualsIgnoreCase),
    ("greater_than", opGreaterThan),
    ("less_than", opLessThan),
    ("greater_than_or_equal", opGreaterThanOrEqual),
    ("less_than_or_equal", opLessThanOrEqual),
    ("is_empty", opIsEmpty),
    ("is_not_empty", opIsNotEmpty),
    ("in", opIn),
    ("not_in", opNotIn) ]

/-- Lookup in the operator table (`self.operators.get(operation)`). -/
def operators (rm : String → String → Bool) (name : String) :
    Option (Value → Value → Except PyErr Bool) :=
  (operatorsList rm).lookup name

/-- The names present in the operator table. -/
def supportedOps : List String :=
  (operatorsList fun _ _ => false).map Prod.fst

/-- A Python dictionary with string keys, embedded as an association
list (keys are unique in the dictionaries the code builds). -/
abbrev PyDict := List (String × Value)

/-- Dictionary lookup, `d.get(k)` / `d[k]` combined with `k in d`. -/
def dictGet (d : PyDict) (k : String) : Option Value :=
  match d with
  | [] => Option.none
  | (key, v) :: rest => if key = k then some v else dictGet rest k

/-- One condition of a rule: `condition.get` of the keys `field`,
`operation` and `value` in `_evaluate_rule`; a missing `value` key
gives Python `None`. -/
structure Condition where
  field : Option String
  operation : Option String
  value : Value

/-- One rule: the keys of the rule dictionary read by the engine
(`priority`, `condition_logic`, `conditions`, `action`); a missing
`conditions` key defaults to the empty list exactly as
`rule.get("conditions", [])` does. -/
structure Rule where
  priority : Option Int
  condition_logic : Option String
  conditions : List Condition
  action : Option PyDict

/-- The sort key `r.get("priority", 100)` used in `evaluate`. -/
def ruleKey (r : Rule) : Int :=
  r.priority.getD 100

/-- Truthiness of the optional `field` and `operation` strings in the
guard `if field and operation and field in email_data`. -/
def optStrTruthy : Option String → Bool
  | some s => !s.isEmpty
  | Option.none => false

/-- Evaluation of a single condition against a record, the body of the
per-condition loop in `RuleEngine._evaluate_rule`: a falsy field or
operation, an absent field, or an unknown operation yield `False`;
otherwise the operator function is applied to the field value and the
condition value. -/
def evalCondition (rm : String → String → Bool) (email : PyDict) (c : Condition) :
    Except PyErr Bool :=
  if optStrTruthy c.field && optStrTruthy c.operation then
    match dictGet email (c.field.getD "") with
    | some fieldValue =>
      match operators rm (c.operation.getD "") with
      | some opFunc => opFunc fieldValue c.value
      | Option.none => .ok false
    | Option.none => .ok false
  else
    .ok false

/-- The `results` loop of `RuleEngine._evaluate_rule`: evaluate each
condition in declaration order; an exception aborts the loop. -/
def evalConds (rm : String → String → Bool) (email : PyDict) :
    List Condition → Except PyErr (List Bool)
  | [] => .ok []
  | c :: cs =>
    match evalCondition rm email c with
    | .error e => .error e
    | .ok b => (evalConds rm email cs).map fun bs => b :: bs

/-- Evaluation of a whole rule, `RuleEngine._evaluate_rule`: an empty
conditions list matches unconditionally; otherwise the condition
results are combined with `all` for AND (and for any unrecognized
logic value) or `any` for OR, after uppercasing
`rule.get("condition_logic", "AND")`. -/
def evalRule (rm : String → String → Bool) (r : Rule) (email : PyDict) :
    Except PyErr Bool :=
  let logic := pyUpper (r.condition_logic.getD "AND")
  if r.conditions.isEmpty then
    .ok true
  else
    (evalConds rm email r.conditions).map fun results =>
      if logic = "AND" then results.all id
      else if logic = "OR" then results.any id
      else results.all id

/-- Boolean version of a successful rule match, used to state
properties of the evaluation loop. -/
def matchedB (rm : String → String → Bool) (email : PyDict) (r : Rule) : Bool :=
  match evalRule rm r email with
  | .ok b => b
  | .error _ => false

/-- The check `action.get("type") == "stop_processing"`. -/
def isStopAction (a : PyDict) : Bool :=
  match dictGet a "type" with
  | some (.str s) => s = "stop_processing"
  | _ => false

/-- Truthiness of `rule.get("action")` in the `if action:` guard. -/
def actionTruthy : Option PyDict → Bool
  | some a => !a.isEmpty
  | Option.none => false

/-- The sort-key ordering `sorted(self.rules, key=...)` uses. -/
def ruleLE (a b : Rule) : Prop :=
  ruleKey a ≤ ruleKey b

instance : DecidableRel ruleLE := fun a b => inferInstanceAs (Decidable (ruleKey a ≤ ruleKey b))

instance : IsTotal Rule ruleLE := ⟨fun a b => Int.le_total (ruleKey a) (ruleKey b)⟩

instance : IsTrans Rule ruleLE := ⟨fun _ _ _ => Int.le_trans⟩

/-- The ordering used by `matching_actions.sort(key=...)`. -/
def pairLE (a b : Int × PyDict) : Prop :=
  a.1 ≤ b.1

instance : DecidableRel pairLE := fun a b => inferInstanceAs (Decidable (a.1 ≤ b.1))

instance : IsTotal (Int × PyDict) pairLE := ⟨fun a b => Int.le_total a.1 b.1⟩

instance : IsTrans (Int × PyDict) pairLE := ⟨fun _ _ _ => Int.le_trans⟩

/-- The iteration over the sorted rules in `RuleEngine.evaluate`.
Besides the collected `(priority, action)` pairs it records, for the
statement of ordering properties, the list of rules on which
`_evaluate_rule` was invoked.  A matched rule whose truthy action has
type `stop_processing` sets the stop flag, which terminates the loop
before any further rule is evaluated. -/
def evalLoop (rm : String → String → Bool) (email : PyDict) :
    List Rule → Except PyErr (List (Int × PyDict) × List Rule)
  | [] => .ok ([], [])
  | r :: rs =>
    match evalRule rm r email with
    | .error e => .error e
    | .ok false => (evalLoop rm email rs).map fun p => (p.1, r :: p.2)
    | .ok true =>
      match r.action with
      | some a =>
        if a.isEmpty then
          (evalLoop rm email rs).map fun p => (p.1, r :: p.2)
        else if isStopAction a then
          .ok ([(ruleKey r, a)], [r])
        else
          (evalLoop rm email rs).map fun p => ((ruleKey r, a) :: p.1, r :: p.2)
      | Option.none => (evalLoop rm email rs).map fun p => (p.1, r :: p.2)

/-- The final `matching_actions.sort(key=lambda item: item["priority"])`. -/
def sortPairs (l : List (Int × PyDict)) : List (Int × PyDict) :=
  l.insertionSort pairLE

/-- `RuleEngine.evaluate` together with the list of evaluated rules:
sort the rules by priority (Python `sorted` is stable, as is
`List.insertionSort`), run the matching loop, sort the collected pairs
by priority and project out the actions. -/
def evaluateFull (rm : String → String → Bool) (rules : List Rule) (email : PyDict) :
    Except PyErr (List PyDict × List Rule) :=
  (evalLoop rm email (rules.insertionSort ruleLE)).map fun p =>
    ((sortPairs p.1).map Prod.snd, p.2)

/-- `RuleEngine.evaluate`: the ordered action list. -/
def evaluate (rm : String → String → Bool) (rules : List Rule) (email : PyDict) :
    Except PyErr (List PyDict) :=
  (evaluateFull rm rules email).map Prod.fst

/-- The keys of the `action_handlers` table built in
`Organizer.__init__`. -/
def handlerNames : List String :=
  [ "move_to_folder", "delete", "add_category", "add_flag", "remove_flag",
    "forward_to", "reply_with_template", "mark_as_read", "mark_as_unread",
    "set_importance", "stop_processing", "no_op" ]

/-- Truthiness of an optional lookup result (`if action.get(k):`). -/
def optValueTruthy : Option Value → Bool
  | some v => v.truthy
  | Option.none => false

/-- The success value returned by each action handler in
`organizer.py`: handlers with a required parameter return `True`
exactly when that parameter is present and truthy; the remaining
handlers always return `True`.  The side effects are log lines only. -/
def runHandler (name : String) (action : PyDict) : Bool :=
  match name with
  | "move_to_folder" => optValueTruthy (dictGet action "target")
  | "delete" => true
  | "add_category" => optValueTruthy (dictGet action "category_name")
  | "add_flag" => optValueTruthy (dictGet action "flag_type")
  | "remove_flag" => optValueTruthy (dictGet action "flag_type")
  | "forward_to" => optValueTruthy (dictGet action "target_email")
  | "reply_with_template" => optValueTruthy (dictGet action "template_id")
  | "mark_as_read" => true
  | "mark_as_unread" => true
  | "set_importance" => optValueTruthy (dictGet action "level")
  | "stop_processing" => true
  | "no_op" => true
  | _ => false

/-- The dispatch loop of `Organizer.organize_email`.  Each element of
the list returned by `RuleEngine.evaluate` is subscripted with
`item['action']` (raising `KeyError` when that key is absent) and the
result is then queried with `.get` (raising `AttributeError` when the
value is not a dictionary); a recognized action type is dispatched to
its handler and appended to the applied list on success, and
`stop_processing` halts the loop. -/
def organizeLoop (email : PyDict) : List PyDict → Except PyErr (List PyDict)
  | [] => .ok []
  | item :: rest =>
    match dictGet item "action" with
    | Option.none => .error .keyError
    | some v =>
      match v with
      | .dict action =>
        match dictGet action "type" with
        | some (.str s) =>
          if handlerNames.contains s then
            let applied := if runHandler s action then [action] else []
            if s = "stop_processing" then
              .ok applied
            else
              (organizeLoop email rest).map fun tl => applied ++ tl
          else
            organizeLoop email rest
        | _ => organizeLoop email rest
      | _ => .error .attributeError

/-- `Organizer.organize_email`: feed the record to
`RuleEngine.evaluate` and dispatch the resulting action list. -/
def organizeEmail (rm : String → String → Bool) (rules : List Rule) (email : PyDict) :
    Except PyErr (List PyDict) :=
  match evaluate rm rules email with
  | .error e => .error e
  | .ok acts => organizeLoop email acts

/-- Reading a Python dictionary: the lookup result together with the
dictionary the read leaves behind. -/
def dictGetSt (d : PyDict) (k : String) : Option Value × PyDict :=
  (dictGet d k, d)

/-- State-threaded form of the condition evaluation: the record is
passed through every dictionary access it performs. -/
def evalConditionSt (rm : String → String → Bool) (c : Condition) (email : PyDict) :
    Except PyErr Bool × PyDict :=
  if optStrTruthy c.field && optStrTruthy c.operation then
    match dictGetSt email (c.field.getD "") with
    | (some fieldValue, email) =>
      match operators rm (c.operation.getD "") with
      | some opFunc => (opFunc fieldValue c.value, email)
      | Option.none => (.ok false, email)
    | (Option.none, email) => (.ok false, email)
  else
    (.ok false, email)

/-- State-threaded evaluation of a list of conditions, mirroring the
`results` loop of `_evaluate_rule`; an exception aborts the loop. -/
def evalCondsSt (rm : String → String → Bool) :
    List Condition → PyDict → Except PyErr (List Bool) × PyDict
  | [], email => (.ok [], email)
  | c :: cs, email =>
    match evalConditionSt rm c email with
    | (.error e, email) => (.error e, email)
    | (.ok b, email) =>
      match evalCondsSt rm cs email with
      | (.error e, email) => (.error e, email)
      | (.ok bs, email) => (.ok (b :: bs), email)

/-- State-threaded form of `_evaluate_rule`. -/
def evalRuleSt (rm : String → String → Bool) (r : Rule) (email : PyDict) :
    Except PyErr Bool × PyDict :=
  let logic := pyUpper (r.condition_logic.getD "AND")
  if r.conditions.isEmpty then
    (.ok true, email)
  else
    match evalCondsSt rm r.conditions email with
    | (.error e, email) => (.error e, email)
    | (.ok results, email) =>
      ((.ok (if logic = "AND" then results.all id
             else if logic = "OR" then results.any id
             else results.all id)), email)

/-- State-threaded form of the rule loop of `RuleEngine.evaluate`. -/
def evalLoopSt (rm : String → String → Bool) :
    List Rule → PyDict → Except PyErr (List (Int × PyDict)) × PyDict
  | [], email => (.ok [], email)
  | r :: rs, email =>
    match evalRuleSt rm r email with
    | (.error e, email) => (.error e, email)
    | (.ok false, email) => evalLoopSt rm rs email
    | (.ok true, email) =>
      match r.action with
      | some a =>
        if a.isEmpty then
          evalLoopSt rm rs email
        else if isStopAction a then
          (.ok [(ruleKey r, a)], email)
        else
          match evalLoopSt rm rs email with
          | (.error e, email) => (.error e, email)
          | (.ok pairs, email) => (.ok ((ruleKey r, a) :: pairs), email)
      | Option.none => evalLoopSt rm rs email

/-- State-threaded form of `RuleEngine.evaluate`: besides the action
list it returns the rule list and the record as the call leaves them
(`sorted` copies the rule list, so `self.rules` is returned as
received). -/
def evaluateSt (rm : String → String → Bool) (rules : List Rule) (email : PyDict) :
    Except PyErr (List PyDict) × List Rule × PyDict :=
  match evalLoopSt rm (rules.insertionSort ruleLE) email with
  | (.error e, email) => (.error e, rules, email)
  | (.ok pairs, email) => (.ok ((sortPairs pairs).map Prod.snd), rules, email)

/-- State-threaded form of an action handler: every handler reads the
record only through `email_data.get('subject', ...)` in its log line
and reads its required parameter from the action dictionary. -/
def runHandlerSt (name : String) (email : PyDict) (action : PyDict) : Bool × PyDict :=
  match dictGetSt email "subject" with
  | (_, email) => (runHandler name action, email)

/-- State-threaded form of the dispatch loop of
`Organizer.organize_email`. -/
def organizeLoopSt (email : PyDict) :
    List PyDict → Except PyErr (List PyDict) × PyDict
  | [] => (.ok [], email)
  | item :: rest =>
    match dictGet item "action" with
    | Option.none => (.error .keyError, email)
    | some v =>
      match v with
      | .dict action =>
        match dictGet action "type" with
        | some (.str s) =>
          if handlerNames.contains s then
            match runHandlerSt s email action with
            | (success, email) =>
              let applied := if success then [action] else []
              if s = "stop_processing" then
                (.ok applied, email)
              else
                match organizeLoopSt email rest with
                | (.error e, email) => (.error e, email)
                | (.ok tl, email) => (.ok (applied ++ tl), email)
          else
            organizeLoopSt email rest
        | _ => organizeLoopSt email rest
      | _ => (.error .attributeError, email)

/-- State-threaded form of `Organizer.organize_email`. -/
def organizeEmailSt (rm : String → String → Bool) (rules : List Rule) (email : PyDict) :
    Except PyErr (List PyDict) × PyDict :=
  match evaluateSt rm rules email with
  | (.error e, _, email) => (.error e, email)
  | (.ok acts, _, email) => organizeLoopSt email acts

/-- A concrete regular-expression matcher used to instantiate the
abstracted `re.match` in closed statements; none of the inputs there
involve a `matches_regex` condition, so the choice is immaterial. -/
def rmNone : String → String → Bool := fun _ _ => false

/-- The contribution of one evaluated rule to the action list: its
action when the rule matched and the action is truthy, nothing
otherwise. -/
def matchedAction (rm : String → String → Bool) (email : PyDict) (r : Rule) :
    Option PyDict :=
  if matchedB rm email r then
    match r.action with
    | some a => if a.isEmpty then Option.none else some a
    | Option.none => Option.none
  else
    Option.none

/-- Rules that the engine cannot tell apart: equal sort key and equal
values of every rule field the evaluation reads. -/
def ruleEquiv (a b : Rule) : Prop :=
  ruleKey a = ruleKey b ∧ a.condition_logic = b.condition_logic ∧
    a.conditions = b.conditions ∧ a.action = b.action

/-- A rule with its missing priority key made explicit: `priority` is
set to the value that `rule.get("priority", 100)` reads. -/
def setPriorityDefault (r : Rule) : Rule :=
  { r with priority := some (ruleKey r) }

end EmailRules

namespace EmailRules

/-! Helper lemmas. -/

theorem char_toNat_ofNat {n : Nat} (h : n.isValidChar) : (Char.ofNat n).toNat = n := by
  unfold Char.ofNat
  rw [dif_pos h]
  rfl

theorem pyLowerChar_idem (c : Char) : pyLowerChar (pyLowerChar c) = pyLowerChar c := by
  unfold pyLowerChar
  by_cases h : 65 ≤ c.toNat ∧ c.toNat ≤ 90
  · rw [if_pos h]
    have hv : (c.toNat + 32).isValidChar := Or.inl (by omega)
    rw [if_neg]
    rw [char_toNat_ofNat hv]
    omega
  · rw [if_neg h, if_neg h]

theorem pyLower_idem (s : String) : pyLower (pyLower s) = pyLower s := by
  unfold pyLower
  have h : pyLowerChar ∘ pyLowerChar = pyLowerChar := funext pyLowerChar_idem
  simp [List.map_map, h]

theorem operators_eq_none_of_not_mem (rm : String → String → Bool) (op : String)
    (h : op ∉ supportedOps) : operators rm op = Option.none := by
  simp only [supportedOps, operatorsList, List.map, List.mem_cons, List.not_mem_nil,
    or_false, not_or] at h
  obtain ⟨h1, h2, h3, h4, h5, h6, h7, h8, h9, h10, h11, h12, h13, h14, h15⟩ := h
  simp [operators, operatorsList, List.lookup,
    beq_eq_false_iff_ne.mpr h1, beq_eq_false_iff_ne.mpr h2, beq_eq_false_iff_ne.mpr h3,
    beq_eq_false_iff_ne.mpr h4, beq_eq_false_iff_ne.mpr h5, beq_eq_false_iff_ne.mpr h6,
    beq_eq_false_iff_ne.mpr h7, beq_eq_false_iff_ne.mpr h8, beq_eq_false_iff_ne.mpr h9,
    beq_eq_false_iff_ne.mpr h10, beq_eq_false_iff_ne.mpr h11, beq_eq_false_iff_ne.mpr h12,
    beq_eq_false_iff_ne.mpr h13, beq_eq_false_iff_ne.mpr h14, beq_eq_false_iff_ne.mpr h15]

theorem evalConds_ok_of_mem (rm : String → String → Bool) (email : PyDict)
    {cs : List Condition} {ys : List Bool} {c : Condition}
    (h : evalConds rm email cs = .ok ys) (hc : c ∈ cs) :
    ∃ b, evalCondition rm email c = .ok b ∧ b ∈ ys := by
  induction cs generalizing ys with
  | nil => cases hc
  | cons a as ih =>
    rw [evalConds] at h
    cases ha : evalCondition rm email a with
    | error e => rw [ha] at h; cases h
    | ok b =>
      rw [ha] at h
      cases has : evalConds rm email as with
      | error e => rw [has] at h; cases h
      | ok bs =>
        rw [has] at h
        cases h
        rcases List.mem_cons.mp hc with hca | hcas
        · exact ⟨b, hca ▸ ha, List.mem_cons_self _ _⟩
        · obtain ⟨y, hy, hmem⟩ := ih has hcas
          exact ⟨y, hy, List.mem_cons_of_mem _ hmem⟩

theorem evalCondition_present (rm : String → String → Bool) (email : PyDict)
    {f op : String} {fv : Value} (cv : Value) (hf : f ≠ "") (hop : op ≠ "")
    (hlook : dictGet email f = some fv) {opf : Value → Value → Except PyErr Bool}
    (hopf : operators rm op = some opf) :
    evalCondition rm email ⟨some f, some op, cv⟩ = opf fv cv := by
  unfold evalCondition
  simp only [optStrTruthy, Option.getD]
  rw [if_pos]
  · rw [hlook, hopf]
  · have hf2 : f.isEmpty = false := by
      rw [Bool.eq_false_iff]; intro hh; exact hf ((String.isEmpty_iff f).mp hh)
    have hop2 : op.isEmpty = false := by
      rw [Bool.eq_false_iff]; intro hh; exact hop ((String.isEmpty_iff op).mp hh)
    simp [hf2, hop2]

theorem cond_false_of_unknown_op (rm : String → String → Bool) (email : PyDict)
    (f : Option String) (op : String) (v : Value) (hop : op ∉ supportedOps) :
    evalCondition rm email ⟨f, some op, v⟩ = .ok false := by
  have hnone := operators_eq_none_of_not_mem rm op hop
  unfold evalCondition
  split
  · cases hd : dictGet email ((⟨f, some op, v⟩ : Condition).field.getD "") with
    | none => rfl
    | some fv => simp [hnone]
  · rfl

theorem cond_false_of_absent_field (rm : String → String → Bool) (email : PyDict)
    (f : String) (op : Option String) (v : Value)
    (h : dictGet email f = Option.none) :
    evalCondition rm email ⟨some f, op, v⟩ = .ok false := by
  unfold evalCondition
  split
  · simp [h]
  · rfl

theorem all_false_of_mem {results : List Bool} (hmem : false ∈ results) :
    results.all id = false := by
  cases hall : results.all id with
  | false => rfl
  | true => exact absurd (List.all_eq_true.mp hall false hmem) (by simp)

theorem rule_no_match_of_cond_false (rm : String → String → Bool) (email : PyDict)
    (r : Rule) (res : Bool) (c : Condition)
    (hcond : evalCondition rm email c = .ok false)
    (hlogic : r.condition_logic = some "AND" ∨ r.condition_logic = Option.none)
    (hc : c ∈ r.conditions)
    (hres : evalRule rm r email = .ok res) : res = false := by
  have hne : r.conditions.isEmpty = false := by
    cases hcs : r.conditions with
    | nil => rw [hcs] at hc; cases hc
    | cons a as => rfl
  have hlog : pyUpper (r.condition_logic.getD "AND") = "AND" := by
    rcases hlogic with h | h <;> rw [h] <;> rfl
  simp only [evalRule, hne, hlog, Bool.false_eq_true, if_false] at hres
  cases hconds : evalConds rm email r.conditions with
  | error e => rw [hconds] at hres; cases hres
  | ok results =>
    rw [hconds] at hres
    simp only [Except.map] at hres
    obtain ⟨b, hb, hmem⟩ := evalConds_ok_of_mem rm email hconds hc
    rw [hcond] at hb
    cases hb
    have hall := all_false_of_mem hmem
    simp only [Except.ok.injEq] at hres
    rw [if_pos trivial] at hres
    rw [hall] at hres
    exact hres.symm

end EmailRules

/-- C5: for every record, a rule whose conditions list is empty matches
unconditionally, whatever the rule's condition-logic value, priority
and action, and whatever the record contains. -/
theorem claim_C5 (rm : String → String → Bool) (email : EmailRules.PyDict)
    (prio : Option Int) (logic : Option String) (act : Option EmailRules.PyDict) :
    EmailRules.evalRule rm ⟨prio, logic, [], act⟩ email = .ok true := by
  simp [EmailRules.evalRule]

/-- C6: a condition whose operation string is not in the supported
operator set evaluates to false and raises no exception, and a rule
with AND condition logic (explicit or defaulted) containing such a
condition does not match. -/
theorem claim_C6 (rm : String → String → Bool) (email : EmailRules.PyDict)
    (f : Option String) (op : String) (v : EmailRules.Value)
    (hop : op ∉ EmailRules.supportedOps) :
    EmailRules.evalCondition rm email ⟨f, some op, v⟩ = .ok false
    ∧ ∀ (r : EmailRules.Rule) (res : Bool),
        r.condition_logic = some "AND" ∨ r.condition_logic = Option.none →
        (⟨f, some op, v⟩ : EmailRules.Condition) ∈ r.conditions →
        EmailRules.evalRule rm r email = .ok res → res = false :=
  ⟨EmailRules.cond_false_of_unknown_op rm email f op v hop,
    fun r res hlogic hc hres =>
      EmailRules.rule_no_match_of_cond_false rm email r res _
        (EmailRules.cond_false_of_unknown_op rm email f op v hop) hlogic hc hres⟩

/-- C6 witness: the unknown operator `fuzzy_match` of the spec's
scenario C, on a concrete record and a concrete one-condition AND
rule. -/
theorem claim_C6_witness :
    EmailRules.evalCondition EmailRules.rmNone [("subject", EmailRules.Value.str "x")]
        ⟨some "subject", some "fuzzy_match", EmailRules.Value.str "x"⟩ = .ok false
    ∧ (false = false) := by
  have h := claim_C6 EmailRules.rmNone [("subject", EmailRules.Value.str "x")]
    (some "subject") "fuzzy_match" (EmailRules.Value.str "x") (by decide)
  exact ⟨h.1, h.2 ⟨some 1, some "AND",
    [⟨some "subject", some "fuzzy_match", EmailRules.Value.str "x"⟩], Option.none⟩
    false (Or.inl rfl) (List.mem_singleton_self _) rfl⟩

/-- C7: a condition whose field is absent from the record evaluates to
false for every operation value (supported, unary, unknown or missing),
and a rule with AND condition logic (explicit or defaulted) containing
such a condition does not match. -/
theorem claim_C7 (rm : String → String → Bool) (email : EmailRules.PyDict)
    (f : String) (op : Option String) (v : EmailRules.Value)
    (habsent : EmailRules.dictGet email f = Option.none) :
    EmailRules.evalCondition rm email ⟨some f, op, v⟩ = .ok false
    ∧ ∀ (r : EmailRules.Rule) (res : Bool),
        r.condition_logic = some "AND" ∨ r.condition_logic = Option.none →
        (⟨some f, op, v⟩ : EmailRules.Condition) ∈ r.conditions →
        EmailRules.evalRule rm r email = .ok res → res = false :=
  ⟨EmailRules.cond_false_of_absent_field rm email f op v habsent,
    fun r res hlogic hc hres =>
      EmailRules.rule_no_match_of_cond_false rm email r res _
        (EmailRules.cond_false_of_absent_field rm email f op v habsent) hlogic hc hres⟩

/-- C2 is refuted as stated: with the supported operator `not_contains`
applied to an integer field value and a string condition value (a type
mismatch) the condition evaluates to true, not false, and with the
supported operator `greater_than` applied to a string field value and
an integer condition value the evaluation raises a `TypeError` instead
of yielding false. -/
theorem claim_C2_counterexample :
    EmailRules.evalCondition EmailRules.rmNone [("size", EmailRules.Value.int 1)]
        ⟨some "size", some "not_contains", EmailRules.Value.str "a"⟩ = .ok true
    ∧ EmailRules.evalCondition EmailRules.rmNone [("subject", EmailRules.Value.str "big")]
        ⟨some "subject", some "greater_than", EmailRules.Value.int 5⟩ =
      .error EmailRules.PyErr.typeError :=
  ⟨rfl, rfl⟩

/-- C2 as amended: for a present, truthily named field: a type
mismatch (a non-string operand) makes conditions with the operators
`contains`, `startswith`, `endswith`, `matches_regex` and
`equals_ignore_case` evaluate to false without raising; the same
mismatch makes `not_contains` evaluate to true; a non-list condition
value makes `in` evaluate to false and `not_in` evaluate to true
without raising; and the numeric comparison operators raise a
`TypeError` when a string field value is compared with an integer
condition value. -/
theorem claim_C2_amended (rm : String → String → Bool) (email : EmailRules.PyDict)
    (f : String) (fv cv : EmailRules.Value)
    (hf : f ≠ "") (hlook : EmailRules.dictGet email f = some fv) :
    ((fv.isStr = false ∨ cv.isStr = false) →
        EmailRules.evalCondition rm email ⟨some f, some "contains", cv⟩ = .ok false
      ∧ EmailRules.evalCondition rm email ⟨some f, some "startswith", cv⟩ = .ok false
      ∧ EmailRules.evalCondition rm email ⟨some f, some "endswith", cv⟩ = .ok false
      ∧ EmailRules.evalCondition rm email ⟨some f, some "matches_regex", cv⟩ = .ok false
      ∧ EmailRules.evalCondition rm email ⟨some f, some "equals_ignore_case", cv⟩ = .ok false
      ∧ EmailRules.evalCondition rm email ⟨some f, some "not_contains", cv⟩ = .ok true)
    ∧ (cv.isList = false →
        EmailRules.evalCondition rm email ⟨some f, some "in", cv⟩ = .ok false
      ∧ EmailRules.evalCondition rm email ⟨some f, some "not_in", cv⟩ = .ok true)
    ∧ (∀ s n, fv = EmailRules.Value.str s → cv = EmailRules.Value.int n →
        EmailRules.evalCondition rm email ⟨some f, some "greater_than", cv⟩ =
          .error EmailRules.PyErr.typeError
      ∧ EmailRules.evalCondition rm email ⟨some f, some "less_than", cv⟩ =
          .error EmailRules.PyErr.typeError
      ∧ EmailRules.evalCondition rm email ⟨some f, some "greater_than_or_equal", cv⟩ =
          .error EmailRules.PyErr.typeError
      ∧ EmailRules.evalCondition rm email ⟨some f, some "less_than_or_equal", cv⟩ =
          .error EmailRules.PyErr.typeError) := by
  have hpres := fun (op : String) hop (opf : EmailRules.Value → EmailRules.Value →
      Except EmailRules.PyErr Bool) hopf =>
    @EmailRules.evalCondition_present rm email f op fv cv hf hop hlook opf hopf
  refine ⟨fun hmm => ?_, fun hnl => ?_, fun s n hs hn => ?_⟩
  · refine ⟨?_, ?_, ?_, ?_, ?_, ?_⟩
    · rw [hpres "contains" (by decide) EmailRules.opContains rfl]
      cases fv <;> cases cv <;> simp_all [EmailRules.opContains, EmailRules.Value.isStr]
    · rw [hpres "startswith" (by decide) EmailRules.opStartswith rfl]
      cases fv <;> cases cv <;> simp_all [EmailRules.opStartswith, EmailRules.Value.isStr]
    · rw [hpres "endswith" (by decide) EmailRules.opEndswith rfl]
      cases fv <;> cases cv <;> simp_all [EmailRules.opEndswith, EmailRules.Value.isStr]
    · rw [hpres "matches_regex" (by decide) (EmailRules.opMatchesRegex rm) rfl]
      cases fv <;> cases cv <;> simp_all [EmailRules.opMatchesRegex, EmailRules.Value.isStr]
    · rw [hpres "equals_ignore_case" (by decide) EmailRules.opEqualsIgnoreCase rfl]
      cases fv <;> cases cv <;> simp_all [EmailRules.opEqualsIgnoreCase, EmailRules.Value.isStr]
    · rw [hpres "not_contains" (by decide) EmailRules.opNotContains rfl]
      cases fv <;> cases cv <;> simp_all [EmailRules.opNotContains, EmailRules.Value.isStr]
  · refine ⟨?_, ?_⟩
    · rw [hpres "in" (by decide) EmailRules.opIn rfl]
      cases cv <;> simp_all [EmailRules.opIn, EmailRules.Value.isList]
    · rw [hpres "not_in" (by decide) EmailRules.opNotIn rfl]
      cases cv <;> simp_all [EmailRules.opNotIn, EmailRules.Value.isList]
  · subst hs hn
    refine ⟨?_, ?_, ?_, ?_⟩
    · rw [hpres "greater_than" (by decide) EmailRules.opGreaterThan rfl]; rfl
    · rw [hpres "less_than" (by decide) EmailRules.opLessThan rfl]; rfl
    · rw [hpres "greater_than_or_equal" (by decide) EmailRules.opGreaterThanOrEqual rfl]; rfl
    · rw [hpres "less_than_or_equal" (by decide) EmailRules.opLessThanOrEqual rfl]; rfl

/-- C2 amended witness: a record with an integer `size` field and a
string `subject` field, exercising every conjunct at concrete inputs. -/
theorem claim_C2_amended_witness :
    EmailRules.evalCondition EmailRules.rmNone [("size", EmailRules.Value.int 1)]
        ⟨some "size", some "contains", EmailRules.Value.str "a"⟩ = .ok false
    ∧ EmailRules.evalCondition EmailRules.rmNone [("size", EmailRules.Value.int 1)]
        ⟨some "size", some "not_contains", EmailRules.Value.str "a"⟩ = .ok true
    ∧ EmailRules.evalCondition EmailRules.rmNone [("size", EmailRules.Value.int 1)]
        ⟨some "size", some "in", EmailRules.Value.str "a"⟩ = .ok false
    ∧ EmailRules.evalCondition EmailRules.rmNone [("subject", EmailRules.Value.str "big")]
        ⟨some "subject", some "less_than", EmailRules.Value.int 5⟩ =
      .error EmailRules.PyErr.typeError := by
  have h1 := claim_C2_amended EmailRules.rmNone [("size", EmailRules.Value.int 1)]
    "size" (EmailRules.Value.int 1) (EmailRules.Value.str "a") (by decide) rfl
  have h2 := claim_C2_amended EmailRules.rmNone [("subject", EmailRules.Value.str "big")]
    "subject" (EmailRules.Value.str "big") (EmailRules.Value.int 5) (by decide) rfl
  exact ⟨(h1.1 (Or.inl rfl)).1, (h1.1 (Or.inl rfl)).2.2.2.2.2,
    (h1.2.1 rfl).1, (h2.2.2 "big" 5 rfl rfl).2.1⟩

/-- C3 is refuted as stated: the operator table spells the prefix and
suffix operators `startswith` and `endswith`, so a condition written
with the claimed operator name `starts_with` (or `ends_with`) takes
the unknown-operator path and evaluates to false even though the
lowercased operands are in the prefix (suffix) relation. -/
theorem claim_C3_counterexample :
    EmailRules.evalCondition EmailRules.rmNone [("subject", EmailRules.Value.str "Abc")]
        ⟨some "subject", some "starts_with", EmailRules.Value.str "AB"⟩ = .ok false
    ∧ EmailRules.strStartsWith (EmailRules.pyLower "Abc") (EmailRules.pyLower "AB") = true
    ∧ EmailRules.evalCondition EmailRules.rmNone [("subject", EmailRules.Value.str "aBC")]
        ⟨some "subject", some "ends_with", EmailRules.Value.str "bc"⟩ = .ok false
    ∧ EmailRules.strEndsWith (EmailRules.pyLower "aBC") (EmailRules.pyLower "bc") = true :=
  ⟨rfl, rfl, rfl, rfl⟩

/-- C3 as amended: on string operands the operators `contains`,
`startswith`, `endswith` and `equals_ignore_case` are case-insensitive
(their result is unchanged when both operands are lowercased), while
`equals` is exact string equality; the names `starts_with` and
`ends_with` are not in the operator table, so conditions using them
always evaluate to false. -/
theorem claim_C3_amended (rm : String → String → Bool) (a b : String) :
    EmailRules.opContains (.str a) (.str b) =
      EmailRules.opContains (.str (EmailRules.pyLower a)) (.str (EmailRules.pyLower b))
    ∧ EmailRules.opStartswith (.str a) (.str b) =
      EmailRules.opStartswith (.str (EmailRules.pyLower a)) (.str (EmailRules.pyLower b))
    ∧ EmailRules.opEndswith (.str a) (.str b) =
      EmailRules.opEndswith (.str (EmailRules.pyLower a)) (.str (EmailRules.pyLower b))
    ∧ EmailRules.opEqualsIgnoreCase (.str a) (.str b) =
      EmailRules.opEqualsIgnoreCase (.str (EmailRules.pyLower a)) (.str (EmailRules.pyLower b))
    ∧ EmailRules.opEquals (.str a) (.str b) = .ok (a == b)
    ∧ EmailRules.operators rm "starts_with" = Option.none
    ∧ EmailRules.operators rm "ends_with" = Option.none
    ∧ (∀ (email : EmailRules.PyDict) (f : Option String) (v : EmailRules.Value),
        EmailRules.evalCondition rm email ⟨f, some "starts_with", v⟩ = .ok false
      ∧ EmailRules.evalCondition rm email ⟨f, some "ends_with", v⟩ = .ok false) := by
  refine ⟨?_, ?_, ?_, ?_, ?_, ?_, ?_, fun email f v => ⟨?_, ?_⟩⟩
  · simp [EmailRules.opContains, EmailRules.pyLower_idem]
  · simp [EmailRules.opStartswith, EmailRules.pyLower_idem]
  · simp [EmailRules.opEndswith, EmailRules.pyLower_idem]
  · simp [EmailRules.opEqualsIgnoreCase, EmailRules.pyLower_idem]
  · simp [EmailRules.opEquals, EmailRules.pyEq]
  · rfl
  · rfl
  · exact EmailRules.cond_false_of_unknown_op rm email f "starts_with" v (by decide)
  · exact EmailRules.cond_false_of_unknown_op rm email f "ends_with" v (by decide)

/-- C7 witness: a record without the `subject` field, probed with the
`is_empty` operator inside a concrete one-condition AND rule. -/
theorem claim_C7_witness :
    EmailRules.evalCondition EmailRules.rmNone [("from", EmailRules.Value.str "a@b.c")]
        ⟨some "subject", some "is_empty", EmailRules.Value.none⟩ = .ok false
    ∧ (false = false) := by
  have h := claim_C7 EmailRules.rmNone [("from", EmailRules.Value.str "a@b.c")]
    "subject" (some "is_empty") EmailRules.Value.none rfl
  exact ⟨h.1, h.2 ⟨some 1, some "AND",
    [⟨some "subject", some "is_empty", EmailRules.Value.none⟩], Option.none⟩
    false (Or.inl rfl) (List.mem_singleton_self _) rfl⟩

namespace EmailRules

theorem evalConditionSt_snd (rm : String → String → Bool) (c : Condition) (email : PyDict) :
    (evalConditionSt rm c email).2 = email := by
  unfold evalConditionSt
  simp only [dictGetSt]
  split
  · split
    · rename_i fv em heq
      injection heq with h1 h2
      subst h2
      split <;> rfl
    · rename_i em heq
      injection heq with h1 h2
      subst h2
      rfl
  · rfl

theorem evalCondsSt_snd (rm : String → String → Bool) (cs : List Condition) (email : PyDict) :
    (evalCondsSt rm cs email).2 = email := by
  induction cs generalizing email with
  | nil => rfl
  | cons c cs ih =>
    unfold evalCondsSt
    split
    · rename_i e email1 heq
      have h := evalConditionSt_snd rm c email
      rw [heq] at h
      exact h
    · rename_i b email1 heq
      have h1 : email1 = email := by
        have h := evalConditionSt_snd rm c email
        rw [heq] at h
        exact h
      split
      · rename_i e2 email2 heq2
        have h := ih email1
        rw [heq2] at h
        exact h.trans h1
      · rename_i bs email2 heq2
        have h := ih email1
        rw [heq2] at h
        exact h.trans h1

theorem evalRuleSt_snd (rm : String → String → Bool) (r : Rule) (email : PyDict) :
    (evalRuleSt rm r email).2 = email := by
  unfold evalRuleSt
  split
  · rfl
  · split
    · rename_i e email1 heq
      have h := evalCondsSt_snd rm r.conditions email
      rw [heq] at h
      exact h
    · rename_i bs email1 heq
      have h := evalCondsSt_snd rm r.conditions email
      rw [heq] at h
      exact h

theorem evalLoopSt_snd (rm : String → String → Bool) (rs : List Rule) (email : PyDict) :
    (evalLoopSt rm rs email).2 = email := by
  induction rs generalizing email with
  | nil => rfl
  | cons r rs ih =>
    unfold evalLoopSt
    split
    · rename_i e email1 heq
      have h := evalRuleSt_snd rm r email
      rw [heq] at h
      exact h
    · rename_i email1 heq
      have h1 : email1 = email := by
        have h := evalRuleSt_snd rm r email
        rw [heq] at h
        exact h
      exact (ih email1).trans h1
    · rename_i email1 heq
      have h1 : email1 = email := by
        have h := evalRuleSt_snd rm r email
        rw [heq] at h
        exact h
      split
      · split
        · exact (ih email1).trans h1
        · split
          · exact h1
          · split
            · rename_i e2 email2 heq2
              have h := ih email1
              rw [heq2] at h
              exact h.trans h1
            · rename_i pairs email2 heq2
              have h := ih email1
              rw [heq2] at h
              exact h.trans h1
      · exact (ih email1).trans h1

theorem evaluateSt_snd (rm : String → String → Bool) (rules : List Rule) (email : PyDict) :
    (evaluateSt rm rules email).2 = (rules, email) := by
  unfold evaluateSt
  split
  · rename_i e email1 heq
    have h := evalLoopSt_snd rm (rules.insertionSort ruleLE) email
    rw [heq] at h
    simp only [Prod.mk.injEq]
    exact ⟨trivial, h⟩
  · rename_i pairs email1 heq
    have h := evalLoopSt_snd rm (rules.insertionSort ruleLE) email
    rw [heq] at h
    simp only [Prod.mk.injEq]
    exact ⟨trivial, h⟩

end EmailRules

namespace EmailRules

theorem evalConditionSt_fst (rm : String → String → Bool) (c : Condition) (email : PyDict) :
    (evalConditionSt rm c email).1 = evalCondition rm email c := by
  unfold evalConditionSt evalCondition
  simp only [dictGetSt]
  split
  · cases hd : dictGet email (c.field.getD "") <;> simp [hd]
    split <;> rfl
  · rfl

theorem evalCondsSt_fst (rm : String → String → Bool) (cs : List Condition) (email : PyDict) :
    (evalCondsSt rm cs email).1 = evalConds rm email cs := by
  induction cs generalizing email with
  | nil => rfl
  | cons c cs ih =>
    unfold evalCondsSt evalConds
    have hfst := evalConditionSt_fst rm c email
    have hsnd := evalConditionSt_snd rm c email
    split
    · rename_i e email1 heq
      rw [heq] at hfst
      rw [← hfst]
    · rename_i b email1 heq
      rw [heq] at hfst hsnd
      rw [← hfst]
      have h1 : email1 = email := hsnd
      subst h1
      have h2 := ih email1
      have h3 := evalCondsSt_snd rm cs email1
      split
      · rename_i e2 email2 heq2
        rw [heq2] at h2
        rw [← h2]
        rfl
      · rename_i bs email2 heq2
        rw [heq2] at h2
        rw [← h2]
        rfl

end EmailRules

namespace EmailRules

theorem evalRuleSt_fst (rm : String → String → Bool) (r : Rule) (email : PyDict) :
    (evalRuleSt rm r email).1 = evalRule rm r email := by
  unfold evalRuleSt evalRule
  split
  · rfl
  · have hfst := evalCondsSt_fst rm r.conditions email
    split
    · rename_i e email1 heq
      rw [heq] at hfst
      rw [← hfst]
      rfl
    · rename_i bs email1 heq
      rw [heq] at hfst
      rw [← hfst]
      rfl

theorem evalLoopSt_fst (rm : String → String → Bool) (rs : List Rule) (email : PyDict) :
    (evalLoopSt rm rs email).1 = (evalLoop rm email rs).map Prod.fst := by
  induction rs generalizing email with
  | nil => rfl
  | cons r rs ih =>
    unfold evalLoopSt evalLoop
    have hfst := evalRuleSt_fst rm r email
    have hsnd := evalRuleSt_snd rm r email
    split
    · rename_i e email1 heq
      rw [heq] at hfst
      rw [← hfst]
      rfl
    · rename_i email1 heq
      rw [heq] at hfst hsnd
      rw [← hfst]
      have h1 : email1 = email := hsnd
      subst h1
      rw [ih email1]
      cases evalLoop rm email1 rs <;> rfl
    · rename_i email1 heq
      rw [heq] at hfst hsnd
      rw [← hfst]
      have h1 : email1 = email := hsnd
      subst h1
      split
      · split
        · rw [ih email1]
          cases evalLoop rm email1 rs <;> rfl
        · split
          · rfl
          · have h2 := ih email1
            split
            · rename_i e2 email2 heq2
              rw [heq2] at h2
              cases hl : evalLoop rm email1 rs with
              | error e3 =>
                rw [hl] at h2
                cases h2
                rfl
              | ok p =>
                rw [hl] at h2
                cases h2
            · rename_i pairs2 email2 heq2
              rw [heq2] at h2
              cases hl : evalLoop rm email1 rs with
              | error e3 =>
                rw [hl] at h2
                cases h2
              | ok p =>
                rw [hl] at h2
                simp only [Except.map] at h2
                cases h2
                rfl
      · rw [ih email1]
        cases evalLoop rm email1 rs <;> rfl

theorem evaluateSt_fst (rm : String → String → Bool) (rules : List Rule) (email : PyDict) :
    (evaluateSt rm rules email).1 = evaluate rm rules email := by
  unfold evaluateSt evaluate evaluateFull
  have hfst := evalLoopSt_fst rm (rules.insertionSort ruleLE) email
  split
  · rename_i e email1 heq
    rw [heq] at hfst
    cases hl : evalLoop rm email (rules.insertionSort ruleLE) with
    | error e2 => rw [hl] at hfst; cases hfst; rfl
    | ok p => rw [hl] at hfst; cases hfst
  · rename_i pairs email1 heq
    rw [heq] at hfst
    cases hl : evalLoop rm email (rules.insertionSort ruleLE) with
    | error e2 => rw [hl] at hfst; cases hfst
    | ok p =>
      rw [hl] at hfst
      simp only [Except.map] at hfst
      cases hfst
      rfl

end EmailRules

namespace EmailRules

theorem runHandlerSt_snd (name : String) (email action : PyDict) :
    (runHandlerSt name email action).2 = email := rfl

theorem organizeLoopSt_snd (email : PyDict) (items : List PyDict) :
    (organizeLoopSt email items).2 = email := by
  induction items with
  | nil => rfl
  | cons item rest ih =>
    unfold organizeLoopSt
    split
    · rfl
    · split
      · split
        · split
          · simp only [runHandlerSt, dictGetSt]
            split
            · rfl
            · split
              · rename_i e email2 heq2
                have h := ih
                rw [heq2] at h
                exact h
              · rename_i tl email2 heq2
                have h := ih
                rw [heq2] at h
                exact h
          · exact ih
        · exact ih
      · rfl

theorem organizeEmailSt_snd (rm : String → String → Bool) (rules : List Rule) (email : PyDict) :
    (organizeEmailSt rm rules email).2 = email := by
  unfold organizeEmailSt
  have h := evaluateSt_snd rm rules email
  split
  · rename_i e rules1 email1 heq
    rw [heq] at h
    exact congrArg Prod.snd h
  · rename_i acts rules1 email1 heq
    rw [heq] at h
    have h2 : email1 = email := congrArg Prod.snd h
    rw [organizeLoopSt_snd, h2]

end EmailRules

/-- C1: on the spec's scenario A the rule engine does return exactly
the expected one-element action list, but `organize_email`, fed that
very list, raises a `KeyError` because it subscripts each returned
action dictionary with the absent key `action` (the Organizer expects
the priority-wrapped shape its own unit tests mock, not the shape
`RuleEngine.evaluate` actually returns), so the claimed exception-free
end-to-end run fails. -/
theorem claim_C1_behavior :
    EmailRules.evaluate EmailRules.rmNone
        [⟨some 1, some "AND",
          [⟨some "subject", some "contains", EmailRules.Value.str "Important"⟩],
          some [("type", EmailRules.Value.str "move_to_folder"),
                ("target", EmailRules.Value.str "Important")]⟩]
        [("subject", EmailRules.Value.str "Important Email")]
      = .ok [[("type", EmailRules.Value.str "move_to_folder"),
              ("target", EmailRules.Value.str "Important")]]
    ∧ EmailRules.organizeEmail EmailRules.rmNone
        [⟨some 1, some "AND",
          [⟨some "subject", some "contains", EmailRules.Value.str "Important"⟩],
          some [("type", EmailRules.Value.str "move_to_folder"),
                ("target", EmailRules.Value.str "Important")]⟩]
        [("subject", EmailRules.Value.str "Important Email")]
      = .error EmailRules.PyErr.keyError :=
  ⟨rfl, rfl⟩

/-- C9: evaluation is deterministic and mutation-free: the rule list
and the record that come out of the state-threaded evaluation are the
ones that went in, a second evaluation on the state left by the first
returns the identical ordered action list, and the threaded result
coincides with the pure `evaluate`. -/
theorem claim_C9 (rm : String → String → Bool) (rules : List EmailRules.Rule)
    (email : EmailRules.PyDict) :
    (EmailRules.evaluateSt rm rules email).2.1 = rules
    ∧ (EmailRules.evaluateSt rm rules email).2.2 = email
    ∧ (EmailRules.evaluateSt rm (EmailRules.evaluateSt rm rules email).2.1
        (EmailRules.evaluateSt rm rules email).2.2).1 = (EmailRules.evaluateSt rm rules email).1
    ∧ (EmailRules.evaluateSt rm rules email).1 = EmailRules.evaluate rm rules email := by
  have h := EmailRules.evaluateSt_snd rm rules email
  have h1 : (EmailRules.evaluateSt rm rules email).2.1 = rules := by rw [h]
  have h2 : (EmailRules.evaluateSt rm rules email).2.2 = email := by rw [h]
  exact ⟨h1, h2, by rw [h1, h2], EmailRules.evaluateSt_fst rm rules email⟩

/-- C10: `organize_email` and every action handler only read the
record: the state-threaded organizer returns the record unchanged both
on normal returns and on the `KeyError` and `AttributeError` paths, and
each state-threaded handler returns the record unchanged. -/
theorem claim_C10 (rm : String → String → Bool) (rules : List EmailRules.Rule)
    (email action : EmailRules.PyDict) (name : String) :
    (EmailRules.organizeEmailSt rm rules email).2 = email
    ∧ (EmailRules.runHandlerSt name email action).2 = email :=
  ⟨EmailRules.organizeEmailSt_snd rm rules email, rfl⟩

namespace EmailRules

theorem matchedB_eq {rm : String → String → Bool} {email : PyDict} {r : Rule} {b : Bool}
    (h : evalRule rm r email = .ok b) : matchedB rm email r = b := by
  unfold matchedB
  rw [h]

theorem isStopAction_nil : isStopAction [] = false := rfl

theorem evalLoop_ok_spec (rm : String → String → Bool) (email : PyDict) :
    ∀ (rs : List Rule) (pairs : List (Int × PyDict)) (trace : List Rule),
      List.Sorted ruleLE rs →
      evalLoop rm email rs = .ok (pairs, trace) →
      trace.Sublist rs
      ∧ pairs = trace.filterMap (fun r => (matchedAction rm email r).map fun a => (ruleKey r, a))
      ∧ (∀ s ∈ trace, matchedB rm email s = true →
          ∀ a, s.action = some a → isStopAction a = true →
          ∀ q ∈ trace, ruleKey q ≤ ruleKey s) := by
  intro rs
  induction rs with
  | nil =>
    intro pairs trace _ h
    rw [evalLoop] at h
    cases h
    exact ⟨List.Sublist.refl _, rfl, by intro s hs; cases hs⟩
  | cons r rs ih =>
    intro pairs trace hsorted h
    have hs' : List.Sorted ruleLE rs := hsorted.of_cons
    have hle : ∀ x ∈ rs, ruleLE r x := List.rel_of_sorted_cons hsorted
    rw [evalLoop] at h
    split at h
    · cases h
    -- evalRule returned ok false
    · rename_i hr
      have hmB := matchedB_eq hr
      cases hl : evalLoop rm email rs with
      | error e => rw [hl] at h; cases h
      | ok p =>
        obtain ⟨p', t'⟩ := p
        rw [hl] at h
        cases h
        obtain ⟨ihsub, ihpairs, ihstop⟩ := ih p' t' hs' hl
        refine ⟨ihsub.cons₂ r, ?_, ?_⟩
        · rw [List.filterMap_cons]
          have hma : matchedAction rm email r = Option.none := by
            unfold matchedAction
            rw [hmB]
            simp
          rw [hma]
          simpa using ihpairs
        · intro s hs hsm a ha hstop q hq
          rcases List.mem_cons.mp hs with hsr | hst
          · subst hsr
            rw [hmB] at hsm
            cases hsm
          · rcases List.mem_cons.mp hq with hqr | hqt
            · subst hqr
              exact hle s (ihsub.subset hst)
            · exact ihstop s hst hsm a ha hstop q hqt
    -- evalRule returned ok true
    · rename_i hr
      have hmB := matchedB_eq hr
      split at h
      -- r.action = some a
      · rename_i a hact
        split at h
        -- a is empty
        · rename_i hemp
          cases hl : evalLoop rm email rs with
          | error e => rw [hl] at h; cases h
          | ok p =>
            obtain ⟨p', t'⟩ := p
            rw [hl] at h
            cases h
            obtain ⟨ihsub, ihpairs, ihstop⟩ := ih p' t' hs' hl
            have hanil : a = [] := List.isEmpty_iff.mp hemp
            refine ⟨ihsub.cons₂ r, ?_, ?_⟩
            · rw [List.filterMap_cons]
              have hma : matchedAction rm email r = Option.none := by
                unfold matchedAction
                rw [hmB, hact]
                simp [hemp]
              rw [hma]
              simpa using ihpairs
            · intro s hs hsm a2 ha2 hstop q hq
              rcases List.mem_cons.mp hs with hsr | hst
              · subst hsr
                rw [hact] at ha2
                cases ha2
                rw [hanil, isStopAction_nil] at hstop
                cases hstop
              · rcases List.mem_cons.mp hq with hqr | hqt
                · subst hqr
                  exact hle s (ihsub.subset hst)
                · exact ihstop s hst hsm a2 ha2 hstop q hqt
        -- a is not empty
        · rename_i hemp
          split at h
          -- stop action
          · rename_i hstopa
            cases h
            refine ⟨(List.nil_sublist rs).cons₂ r, ?_, ?_⟩
            · rw [List.filterMap_cons]
              have hma : matchedAction rm email r = some a := by
                unfold matchedAction
                rw [hmB, hact]
                simp [hemp]
              rw [hma]
              rfl
            · intro s hs hsm a2 ha2 hstop2 q hq
              rcases List.mem_cons.mp hs with hsr | hst
              · subst hsr
                rcases List.mem_cons.mp hq with hqr | hqt
                · subst hqr; exact le_refl _
                · cases hqt
              · cases hst
          -- not a stop action
          · rename_i hstopa
            cases hl : evalLoop rm email rs with
            | error e => rw [hl] at h; cases h
            | ok p =>
              obtain ⟨p', t'⟩ := p
              rw [hl] at h
              cases h
              obtain ⟨ihsub, ihpairs, ihstop⟩ := ih p' t' hs' hl
              refine ⟨ihsub.cons₂ r, ?_, ?_⟩
              · rw [List.filterMap_cons]
                have hma : matchedAction rm email r = some a := by
                  unfold matchedAction
                  rw [hmB, hact]
                  simp [hemp]
                rw [hma, ihpairs]
                rfl
              · intro s hs hsm a2 ha2 hstop2 q hq
                rcases List.mem_cons.mp hs with hsr | hst
                · subst hsr
                  rw [hact] at ha2
                  cases ha2
                  exact absurd hstop2 hstopa
                · rcases List.mem_cons.mp hq with hqr | hqt
                  · subst hqr
                    exact hle s (ihsub.subset hst)
                  · exact ihstop s hst hsm a2 ha2 hstop2 q hqt
      -- r.action = none
      · rename_i hact
        cases hl : evalLoop rm email rs with
        | error e => rw [hl] at h; cases h
        | ok p =>
          obtain ⟨p', t'⟩ := p
          rw [hl] at h
          cases h
          obtain ⟨ihsub, ihpairs, ihstop⟩ := ih p' t' hs' hl
          refine ⟨ihsub.cons₂ r, ?_, ?_⟩
          · rw [List.filterMap_cons]
            have hma : matchedAction rm email r = Option.none := by
              unfold matchedAction
              rw [hmB, hact]
              simp
            rw [hma]
            simpa using ihpairs
          · intro s hs hsm a ha hstop q hq
            rcases List.mem_cons.mp hs with hsr | hst
            · subst hsr
              rw [hact] at ha
              cases ha
            · rcases List.mem_cons.mp hq with hqr | hqt
              · subst hqr
                exact hle s (ihsub.subset hst)
              · exact ihstop s hst hsm a ha hstop q hqt

end EmailRules

namespace EmailRules

theorem sortPairs_eq_of_sorted {pairs : List (Int × PyDict)}
    (h : List.Sorted pairLE pairs) : sortPairs pairs = pairs :=
  List.Sorted.insertionSort_eq h

end EmailRules

/-- C4: once a matched rule with a truthy `stop_processing` action has
been reached, every rule the engine evaluated for this record has a
priority key less than or equal to that rule's, and the returned
actions are exactly the actions of the matched rules among the
evaluated ones, in evaluation (priority) order. -/
theorem claim_C4 (rm : String → String → Bool) (rules : List EmailRules.Rule)
    (email : EmailRules.PyDict) (acts : List EmailRules.PyDict)
    (trace : List EmailRules.Rule) (s : EmailRules.Rule) (a : EmailRules.PyDict)
    (h : EmailRules.evaluateFull rm rules email = .ok (acts, trace))
    (hs : s ∈ trace) (hm : EmailRules.matchedB rm email s = true)
    (ha : s.action = some a) (hstop : EmailRules.isStopAction a = true) :
    (∀ q ∈ trace, EmailRules.ruleKey q ≤ EmailRules.ruleKey s)
    ∧ acts = trace.filterMap (EmailRules.matchedAction rm email) := by
  unfold EmailRules.evaluateFull at h
  cases hl : EmailRules.evalLoop rm email (rules.insertionSort EmailRules.ruleLE) with
  | error e => rw [hl] at h; cases h
  | ok p =>
    obtain ⟨pairs, t⟩ := p
    rw [hl] at h
    cases h
    have hsorted := List.sorted_insertionSort EmailRules.ruleLE rules
    obtain ⟨hsub, hpairs, hstopspec⟩ :=
      EmailRules.evalLoop_ok_spec rm email _ pairs t hsorted hl
    have htr : List.Sorted EmailRules.ruleLE t := List.Pairwise.sublist hsub hsorted
    refine ⟨fun q hq => hstopspec s hs hm a ha hstop q hq, ?_⟩
    have hpsorted : List.Sorted EmailRules.pairLE pairs := by
      rw [hpairs]
      refine List.Pairwise.filterMap _ ?_ htr
      intro x y hxy bx hbx by2 hby
      rcases Option.map_eq_some'.mp (Option.mem_def.mp hbx) with ⟨ax, hax, rfl⟩
      rcases Option.map_eq_some'.mp (Option.mem_def.mp hby) with ⟨ay, hay, rfl⟩
      exact hxy
    rw [EmailRules.sortPairs_eq_of_sorted hpsorted, hpairs, List.map_filterMap]
    have hfun : (fun r => ((EmailRules.matchedAction rm email r).map
        fun a => (EmailRules.ruleKey r, a)).map Prod.snd)
        = EmailRules.matchedAction rm email := by
      funext r
      cases EmailRules.matchedAction rm email r <;> rfl
    rw [hfun]

/-- C4 witness: the spec's scenario B, a priority-0 stop rule followed
by a priority-1 move rule, on a record matching both. -/
theorem claim_C4_witness :
    EmailRules.ruleKey (⟨some 0, some "AND",
        [⟨some "from", some "contains", EmailRules.Value.str "friend@example.com"⟩],
        some [("type", EmailRules.Value.str "stop_processing")]⟩ : EmailRules.Rule)
      ≤ EmailRules.ruleKey (⟨some 0, some "AND",
        [⟨some "from", some "contains", EmailRules.Value.str "friend@example.com"⟩],
        some [("type", EmailRules.Value.str "stop_processing")]⟩ : EmailRules.Rule)
    ∧ [[("type", EmailRules.Value.str "stop_processing")]]
      = [(⟨some 0, some "AND",
          [⟨some "from", some "contains", EmailRules.Value.str "friend@example.com"⟩],
          some [("type", EmailRules.Value.str "stop_processing")]⟩ : EmailRules.Rule)].filterMap
        (EmailRules.matchedAction EmailRules.rmNone
          [("from", EmailRules.Value.str "friend@example.com"),
           ("subject", EmailRules.Value.str "Important")]) := by
  have h := claim_C4 EmailRules.rmNone
    [⟨some 0, some "AND",
        [⟨some "from", some "contains", EmailRules.Value.str "friend@example.com"⟩],
        some [("type", EmailRules.Value.str "stop_processing")]⟩,
     ⟨some 1, some "AND",
        [⟨some "subject", some "contains", EmailRules.Value.str "Important"⟩],
        some [("type", EmailRules.Value.str "move_to_folder"),
              ("target", EmailRules.Value.str "X")]⟩]
    [("from", EmailRules.Value.str "friend@example.com"),
     ("subject", EmailRules.Value.str "Important")]
    [[("type", EmailRules.Value.str "stop_processing")]]
    [⟨some 0, some "AND",
        [⟨some "from", some "contains", EmailRules.Value.str "friend@example.com"⟩],
        some [("type", EmailRules.Value.str "stop_processing")]⟩]
    ⟨some 0, some "AND",
        [⟨some "from", some "contains", EmailRules.Value.str "friend@example.com"⟩],
        some [("type", EmailRules.Value.str "stop_processing")]⟩
    [("type", EmailRules.Value.str "stop_processing")]
    rfl (List.mem_singleton_self _) rfl rfl rfl
  exact ⟨h.1 _ (List.mem_singleton_self _), h.2⟩

namespace EmailRules

theorem ruleEquiv_setPriorityDefault (r : Rule) : ruleEquiv (setPriorityDefault r) r :=
  ⟨rfl, rfl, rfl, rfl⟩

theorem forall2_setPriorityDefault (rules : List Rule) :
    List.Forall₂ ruleEquiv (rules.map setPriorityDefault) rules := by
  induction rules with
  | nil => exact List.Forall₂.nil
  | cons r rs ih => exact List.Forall₂.cons (ruleEquiv_setPriorityDefault r) ih

theorem evalRule_congr (rm : String → String → Bool) (email : PyDict) {a b : Rule}
    (h : ruleEquiv a b) : evalRule rm a email = evalRule rm b email := by
  obtain ⟨hk, hl, hc, ha⟩ := h
  unfold evalRule
  rw [hl, hc]

theorem orderedInsert_congr {l₁ l₂ : List Rule} {a b : Rule} (hab : ruleEquiv a b)
    (hl : List.Forall₂ ruleEquiv l₁ l₂) :
    List.Forall₂ ruleEquiv (l₁.orderedInsert ruleLE a) (l₂.orderedInsert ruleLE b) := by
  induction hl with
  | nil => exact List.Forall₂.cons hab List.Forall₂.nil
  | cons hxy hrest ih =>
    rename_i x y xs ys
    rw [List.orderedInsert, List.orderedInsert]
    have hkey : ruleLE a x ↔ ruleLE b y := by
      unfold ruleLE
      rw [hab.1, hxy.1]
    by_cases hc : ruleLE a x
    · rw [if_pos hc, if_pos (hkey.mp hc)]
      exact List.Forall₂.cons hab (List.Forall₂.cons hxy hrest)
    · rw [if_neg hc, if_neg (fun hby => hc (hkey.mpr hby))]
      exact List.Forall₂.cons hxy ih

theorem insertionSort_congr {l₁ l₂ : List Rule} (h : List.Forall₂ ruleEquiv l₁ l₂) :
    List.Forall₂ ruleEquiv (l₁.insertionSort ruleLE) (l₂.insertionSort ruleLE) := by
  induction h with
  | nil => exact List.Forall₂.nil
  | cons hxy hrest ih =>
    rw [List.insertionSort, List.insertionSort]
    exact orderedInsert_congr hxy ih

theorem map_fst_tail_congr {e1 e2 : Except PyErr (List (Int × PyDict) × List Rule)}
    (h : e1.map Prod.fst = e2.map Prod.fst) (x y : Rule) :
    (e1.map fun p => (p.1, x :: p.2)).map Prod.fst
      = (e2.map fun p => (p.1, y :: p.2)).map Prod.fst := by
  cases e1 with
  | error a =>
    cases e2 with
    | error b => simp only [Except.map] at h ⊢; exact h
    | ok b => simp only [Except.map] at h; cases h
  | ok a =>
    cases e2 with
    | error b => simp only [Except.map] at h; cases h
    | ok b =>
      simp only [Except.map, Except.ok.injEq] at h ⊢
      exact h

theorem map_fst_cons_congr {e1 e2 : Except PyErr (List (Int × PyDict) × List Rule)}
    (h : e1.map Prod.fst = e2.map Prod.fst) (x y : Rule)
    (hk : ruleKey x = ruleKey y) (a : PyDict) :
    (e1.map fun p => ((ruleKey x, a) :: p.1, x :: p.2)).map Prod.fst
      = (e2.map fun p => ((ruleKey y, a) :: p.1, y :: p.2)).map Prod.fst := by
  cases e1 with
  | error b =>
    cases e2 with
    | error c => simp only [Except.map] at h ⊢; exact h
    | ok c => simp only [Except.map] at h; cases h
  | ok b =>
    cases e2 with
    | error c => simp only [Except.map] at h; cases h
    | ok c =>
      simp only [Except.map, Except.ok.injEq] at h ⊢
      rw [hk, h]

theorem evalLoop_congr (rm : String → String → Bool) (email : PyDict)
    {rs₁ rs₂ : List Rule} (h : List.Forall₂ ruleEquiv rs₁ rs₂) :
    (evalLoop rm email rs₁).map Prod.fst = (evalLoop rm email rs₂).map Prod.fst := by
  induction h with
  | nil => rfl
  | cons hxy hrest ih =>
    rename_i x y xs ys
    rw [evalLoop, evalLoop, evalRule_congr rm email hxy]
    cases hr : evalRule rm y email with
    | error e => rfl
    | ok b =>
      cases b with
      | false => exact map_fst_tail_congr ih x y
      | true =>
        rw [hxy.2.2.2]
        cases hact : y.action with
        | none => exact map_fst_tail_congr ih x y
        | some a =>
          cases hemp : a.isEmpty with
          | true =>
            simp only [hemp]
            exact map_fst_tail_congr ih x y
          | false =>
            cases hstopa : isStopAction a with
            | true =>
              simp only [hemp, hstopa]
              show Except.map Prod.fst (Except.ok ([(ruleKey x, a)], [x]))
                = Except.map Prod.fst (Except.ok ([(ruleKey y, a)], [y]))
              simp only [Except.map, Except.ok.injEq]
              rw [hxy.1]
            | false =>
              simp only [hemp, hstopa]
              exact map_fst_cons_congr ih x y hxy.1 a

theorem evaluate_congr (rm : String → String → Bool) (email : PyDict)
    {rules₁ rules₂ : List Rule} (h : List.Forall₂ ruleEquiv rules₁ rules₂) :
    evaluate rm rules₁ email = evaluate rm rules₂ email := by
  have hp := evalLoop_congr rm email (insertionSort_congr h)
  unfold evaluate evaluateFull
  cases h1 : evalLoop rm email (rules₁.insertionSort ruleLE) with
  | error e =>
    cases h2 : evalLoop rm email (rules₂.insertionSort ruleLE) with
    | error e2 =>
      rw [h1, h2] at hp
      simp only [Except.map, Except.error.injEq] at hp ⊢
      exact hp
    | ok p2 =>
      rw [h1, h2] at hp
      simp only [Except.map] at hp
      cases hp
  | ok p1 =>
    cases h2 : evalLoop rm email (rules₂.insertionSort ruleLE) with
    | error e2 =>
      rw [h1, h2] at hp
      simp only [Except.map] at hp
      cases hp
    | ok p2 =>
      rw [h1, h2] at hp
      simp only [Except.map, Except.ok.injEq] at hp ⊢
      rw [hp]

end EmailRules

namespace EmailRules

theorem sorted_of_const_key {p : Int} {rules : List Rule}
    (h : ∀ r ∈ rules, ruleKey r = p) : List.Sorted ruleLE rules := by
  induction rules with
  | nil => exact List.sorted_nil
  | cons r rs ih =>
    refine List.sorted_cons.mpr ⟨?_, ih fun q hq => h q (List.mem_cons_of_mem r hq)⟩
    intro b hb
    unfold ruleLE
    rw [h r (List.mem_cons_self r rs), h b (List.mem_cons_of_mem r hb)]

theorem sorted_of_const_fst {p : Int} {l : List (Int × PyDict)}
    (h : ∀ x ∈ l, x.1 = p) : List.Sorted pairLE l := by
  induction l with
  | nil => exact List.sorted_nil
  | cons x xs ih =>
    refine List.sorted_cons.mpr ⟨?_, ih fun q hq => h q (List.mem_cons_of_mem x hq)⟩
    intro b hb
    unfold pairLE
    rw [h x (List.mem_cons_self x xs), h b (List.mem_cons_of_mem x hb)]

theorem evalLoop_all_matched (rm : String → String → Bool) (email : PyDict) :
    ∀ (rules : List Rule),
    (∀ r ∈ rules, evalRule rm r email = .ok true) →
    (∀ r ∈ rules, ∃ a, r.action = some a ∧ a.isEmpty = false ∧ isStopAction a = false) →
    evalLoop rm email rules
      = .ok (rules.filterMap (fun r => r.action.map fun a => (ruleKey r, a)), rules) := by
  intro rules
  induction rules with
  | nil => intro _ _; rfl
  | cons r rs ih =>
    intro hm hact
    obtain ⟨a, ha, hemp, hstop⟩ := hact r (List.mem_cons_self r rs)
    rw [evalLoop, hm r (List.mem_cons_self r rs), ha]
    simp only [hemp, hstop, Bool.false_eq_true, if_false]
    rw [ih (fun q hq => hm q (List.mem_cons_of_mem r hq))
        (fun q hq => hact q (List.mem_cons_of_mem r hq))]
    simp only [Except.map, List.filterMap_cons, ha, Option.map_some]
    rfl

end EmailRules

/-- C8: the engine processes rules in ascending priority order (the
list of evaluated rules is always sorted by the priority key), a rule
lacking a priority key behaves exactly as the same rule with priority
100, and rules of equal priority that all match with truthy
non-stopping actions contribute their actions in declaration order. -/
theorem claim_C8 (rm : String → String → Bool) (email : EmailRules.PyDict) :
    (∀ (rules : List EmailRules.Rule) (acts : List EmailRules.PyDict)
        (trace : List EmailRules.Rule),
        EmailRules.evaluateFull rm rules email = .ok (acts, trace) →
        List.Sorted EmailRules.ruleLE trace)
    ∧ (∀ rules : List EmailRules.Rule,
        EmailRules.evaluate rm (rules.map EmailRules.setPriorityDefault) email
          = EmailRules.evaluate rm rules email)
    ∧ (∀ (p : Int) (rules : List EmailRules.Rule),
        (∀ r ∈ rules, r.priority = some p) →
        (∀ r ∈ rules, EmailRules.evalRule rm r email = .ok true) →
        (∀ r ∈ rules, ∃ a, r.action = some a ∧ a.isEmpty = false
            ∧ EmailRules.isStopAction a = false) →
        EmailRules.evaluate rm rules email
          = .ok (rules.filterMap EmailRules.Rule.action)) := by
  refine ⟨?_, ?_, ?_⟩
  · intro rules acts trace h
    unfold EmailRules.evaluateFull at h
    cases hl : EmailRules.evalLoop rm email (rules.insertionSort EmailRules.ruleLE) with
    | error e => rw [hl] at h; cases h
    | ok p =>
      obtain ⟨pairs, t⟩ := p
      rw [hl] at h
      cases h
      have hsorted := List.sorted_insertionSort EmailRules.ruleLE rules
      obtain ⟨hsub, _, _⟩ := EmailRules.evalLoop_ok_spec rm email _ pairs t hsorted hl
      exact List.Pairwise.sublist hsub hsorted
  · intro rules
    exact EmailRules.evaluate_congr rm email (EmailRules.forall2_setPriorityDefault rules)
  · intro p rules hprio hm hact
    have hkey : ∀ r ∈ rules, EmailRules.ruleKey r = p := by
      intro r hr
      unfold EmailRules.ruleKey
      rw [hprio r hr]
      rfl
    have hsorted : List.Sorted EmailRules.ruleLE rules :=
      EmailRules.sorted_of_const_key hkey
    unfold EmailRules.evaluate EmailRules.evaluateFull
    rw [List.Sorted.insertionSort_eq hsorted,
      EmailRules.evalLoop_all_matched rm email rules hm hact]
    have hfstp : ∀ x ∈ rules.filterMap
        (fun r => r.action.map fun a => (EmailRules.ruleKey r, a)), x.1 = p := by
      intro x hx
      obtain ⟨r, hr, hfx⟩ := List.mem_filterMap.mp hx
      obtain ⟨a, ha, rfl⟩ := Option.map_eq_some'.mp hfx
      exact hkey r hr
    rw [Except.map, Except.map]
    rw [EmailRules.sortPairs_eq_of_sorted (EmailRules.sorted_of_const_fst hfstp)]
    rw [List.map_filterMap]
    have hfun : (fun r => ((EmailRules.Rule.action r).map
        fun a => (EmailRules.ruleKey r, a)).map Prod.snd) = EmailRules.Rule.action := by
      funext r
      cases r.action <;> rfl
    rw [hfun]

/-- C8 witness: a rule without a priority key compared against the
same rule with priority 100, two equal-priority catch-all rules
contributing in declaration order, and the sortedness of a concrete
evaluation trace. -/
theorem claim_C8_witness :
    List.Sorted EmailRules.ruleLE
      [⟨some 1, some "AND", [], some [("type", EmailRules.Value.str "no_op")]⟩]
    ∧ EmailRules.evaluate EmailRules.rmNone
        ([⟨Option.none, some "AND", [], some [("type", EmailRules.Value.str "no_op")]⟩].map
          EmailRules.setPriorityDefault) []
      = EmailRules.evaluate EmailRules.rmNone
        [⟨Option.none, some "AND", [], some [("type", EmailRules.Value.str "no_op")]⟩] []
    ∧ EmailRules.evaluate EmailRules.rmNone
        [⟨some 5, some "AND", [], some [("type", EmailRules.Value.str "mark_as_read")]⟩,
         ⟨some 5, some "AND", [], some [("type", EmailRules.Value.str "no_op")]⟩] []
      = .ok [[("type", EmailRules.Value.str "mark_as_read")],
             [("type", EmailRules.Value.str "no_op")]] := by
  have h := claim_C8 EmailRules.rmNone []
  refine ⟨?_, h.2.1 _, ?_⟩
  · exact h.1 [⟨some 1, some "AND", [], some [("type", EmailRules.Value.str "no_op")]⟩]
      [[("type", EmailRules.Value.str "no_op")]]
      [⟨some 1, some "AND", [], some [("type", EmailRules.Value.str "no_op")]⟩] rfl
  · have hc := h.2.2 5
      [⟨some 5, some "AND", [], some [("type", EmailRules.Value.str "mark_as_read")]⟩,
       ⟨some 5, some "AND", [], some [("type", EmailRules.Value.str "no_op")]⟩]
      (by
        intro r hr
        rcases List.mem_cons.mp hr with rfl | hr2
        · rfl
        · rcases List.mem_cons.mp hr2 with rfl | hr3
          · rfl
          · cases hr3)
      (by
        intro r hr
        rcases List.mem_cons.mp hr with rfl | hr2
        · rfl
        · rcases List.mem_cons.mp hr2 with rfl | hr3
          · rfl
          · cases hr3)
      (by
        intro r hr
        rcases List.mem_cons.mp hr with rfl | hr2
        · exact ⟨[("type", EmailRules.Value.str "mark_as_read")], rfl, rfl, rfl⟩
        · rcases List.mem_cons.mp hr2 with rfl | hr3
          · exact ⟨[("type", EmailRules.Value.str "no_op")], rfl, rfl, rfl⟩
          · cases hr3)
    exact hc
